import Mathlib

/-!
Verification of the client-side core of the relayfetch-panel dashboard.

The development shallowly embeds the reactive state logic of the two Vue
views that carry the real invariants:

* the status view (snapshot poller and order-stable reconciler): the
  `fileOrder` merge performed in `load`, the `files` computed sort, the
  per-file percent shown in the progress cell, and the auto-refresh timer;
* the config view (mutation request builder): `fileData`, `hasFileChanges`,
  the request construction and form reset inside `updateFileConfig`, the
  row and selection operations, and the `hasChanges` dirty guard for the
  basic configuration form.

JavaScript arrays become `List`, objects with string keys become lists of
entries in key-enumeration order, `null` becomes `Option`, and the JS
number arithmetic of the percent display is modelled over `Rat` with an
explicit `Option` marking the non-finite results of division by zero.
-/

namespace RelayfetchPanel

/-! ### Data model (src/api/types.ts) -/

/-- One entry of `StatusResponse.files` (types.ts, `FileProgressResponse`).
The `file` field is the unique name and merge key. -/
structure FileProgressResponse where
  file : String
  downloaded : Nat
  total : Nat
  done : Bool
  error : Option String
deriving DecidableEq

/-- One row of an add or replace form (types.ts, `FileItem`). -/
structure FileItem where
  filename : String
  path : String
deriving DecidableEq

/-- Body of `POST update_files` (types.ts, `UpdateFilesRequest`). -/
structure UpdateFilesRequest where
  add_files : List FileItem
  remove_files : List String
  replace_all : Bool
  replace_files : List FileItem
deriving DecidableEq

/-- The fields of `GetConfigResponse` read by the basic-config form
(ConfigView.vue, `loadConfig` and `hasChanges`); `proxy` is nullable. -/
structure GetConfigResponse where
  url : String
  storage_dir : String
  interval_secs : Int
  proxy : Option String
deriving DecidableEq

/-- The reactive `formData` of the basic-config form (ConfigView.vue). -/
structure ConfigForm where
  url : String
  storage_dir : String
  interval_secs : Int
  proxy : String
deriving DecidableEq

/-! ### Order-stable reconciler (status view, `load` lines 66-76 and the
`files` computed property lines 21-42) -/

/-- The new-file append loop of `load`: for each incoming name, push it to
the order list unless the list already includes it (`fileOrder.value.push`
guarded by `!fileOrder.value.includes(file)`). -/
def appendNew (order : List String) (incoming : List String) : List String :=
  incoming.foldl (fun acc f => if acc.contains f then acc else acc ++ [f]) order

/-- The complete `fileOrder` update of `load`: append the new names, then
drop every name that is no longer present
(`fileOrder.value = fileOrder.value.filter(file => newFiles.includes(file))`). -/
def updateFileOrder (order : List String) (incoming : List String) : List String :=
  (appendNew order incoming).filter (fun f => incoming.contains f)

/-- JS `Array.prototype.indexOf` on a list of names: the index of the first
occurrence, or `-1` when absent. -/
def jsIndexOf (l : List String) (x : String) : Int :=
  if x ∈ l then (List.indexOf x l : Int) else -1

/-- Model of `String.prototype.localeCompare` as code-point comparison:
negative, zero or positive according to the order of the two strings. -/
def localeCompare (a b : String) : Int :=
  if a < b then -1 else if b < a then 1 else 0

/-- The comparator of the `files` computed property: names absent from
`fileOrder` sort last among themselves by `localeCompare`; names present
sort by their index in `fileOrder`. -/
def cmpFiles (order : List String) (a b : FileProgressResponse) : Int :=
  if jsIndexOf order a.file = -1 ∧ jsIndexOf order b.file = -1 then
    localeCompare a.file b.file
  else if jsIndexOf order a.file = -1 then 1
  else if jsIndexOf order b.file = -1 then -1
  else jsIndexOf order a.file - jsIndexOf order b.file

/-- The non-positive-comparator relation used to sort. A JS comparator sort
puts `a` before `b` exactly when the comparator is non-positive; since
`cmpFiles` is total and transitive in this sense, any correct sort
(JS engines are stable mergesorts) produces the unique order, which
insertion sort realises here. -/
def cmpLe (order : List String) (a b : FileProgressResponse) : Prop :=
  cmpFiles order a b ≤ 0

instance (order : List String) : DecidableRel (cmpLe order) := fun a b => by
  unfold cmpLe
  infer_instance

/-- The `files` computed property: the snapshot entries (in object
key-enumeration order) sorted with `cmpFiles`. -/
def filesComputed (order : List String) (snapFiles : List FileProgressResponse) :
    List FileProgressResponse :=
  snapFiles.insertionSort (cmpLe order)

/-- The sequence of file names the table displays after a `load` that
received `snapFiles`, starting from the previous `fileOrder`: the merge
updates `fileOrder` first, then the computed property sorts against the
updated order. -/
def displayedNames (order : List String) (snapFiles : List FileProgressResponse) :
    List String :=
  (filesComputed (updateFileOrder order (snapFiles.map FileProgressResponse.file))
    snapFiles).map FileProgressResponse.file

/-! ### Per-file percent (status view template, progress cell) -/

/-- `Math.round` on a finite value: round half toward positive infinity. -/
def jsRound (q : ℚ) : ℤ := ⌊q + 1/2⌋

/-- The percent label of the progress cell:
`Math.round((file.downloaded / file.total) * 100)`. Division by zero in JS
produces `NaN` (0/0) or `Infinity`, and `Math.round` propagates them, so
the non-finite case `total = 0` is modelled as `none`; every other input of
the claims is exactly representable, so `Rat` arithmetic agrees with the
JS float result. -/
def filePercentDisplayed (downloaded total : Nat) : Option ℤ :=
  if total = 0 then none
  else some (jsRound ((downloaded : ℚ) / (total : ℚ) * 100))

/-- Modelled from the spec: the per-file percent the spec prescribes,
`round(100 * min(1, downloaded/total))` with `total = 0` treated as `0`.
No function in the source implements this; it is stated only to compare
the displayed value against the specified one. -/
def filePercentSpec (downloaded total : Nat) : ℤ :=
  if total = 0 then 0
  else jsRound (100 * min 1 ((downloaded : ℚ) / (total : ℚ)))

/-! ### Snapshot poller (status view, `load` lines 56-84 and the timer
logic lines 110-132) -/

/-- The reactive state of the status view that the poller touches:
`data` (reduced to its `files` map), `loading`, `error`, `fileOrder`, the
number of `status()` fetches currently outstanding, and whether the
auto-refresh interval timer is installed. -/
structure PollState where
  files : Option (List FileProgressResponse)
  loading : Bool
  error : Option String
  fileOrder : List String
  inFlight : Nat
  timerActive : Bool
deriving DecidableEq

/-- Outcome of one `status()` fetch. -/
inductive FetchResult where
  | ok (files : List FileProgressResponse)
  | err (msg : String)
deriving DecidableEq

/-- Events of the single-threaded event loop driving the view: an interval
timer tick, or the completion of an outstanding fetch. -/
inductive PollEvent where
  | tick
  | fetchResolved (r : FetchResult)
deriving DecidableEq

/-- The synchronous head of `load`: set `loading`, clear `error`, and issue
the fetch (one more outstanding request). Nothing in `load` checks whether
a fetch is already outstanding. -/
def startLoad (s : PollState) : PollState :=
  { s with loading := true, error := none, inFlight := s.inFlight + 1 }

/-- The continuation of `load` once the fetch settles: on success store the
snapshot and merge `fileOrder`; on failure store the message in `error`
(the exception is caught, not rethrown). The `finally` clause clears
`loading` in both cases. The timer is untouched. -/
def finishLoad (s : PollState) : FetchResult → PollState
  | .ok fs =>
      { s with files := some fs,
               fileOrder := updateFileOrder s.fileOrder (fs.map FileProgressResponse.file),
               loading := false,
               inFlight := s.inFlight - 1 }
  | .err m =>
      { s with error := some m,
               loading := false,
               inFlight := s.inFlight - 1 }

/-- One step of the event loop: a timer tick invokes `load` unconditionally
whenever the interval is installed (`window.setInterval(load, 2000)` has no
overlap guard); a resolution runs the continuation of `load`. -/
def pollStep (s : PollState) : PollEvent → PollState
  | .tick => if s.timerActive then startLoad s else s
  | .fetchResolved r => finishLoad s r

/-- The refs as initialised at the top of the script
(`autoRefresh` starts `true`). -/
def initialPollState : PollState :=
  { files := none, loading := false, error := none,
    fileOrder := [], inFlight := 0, timerActive := true }

/-- State right after `onMounted`: `load()` has been invoked once and the
interval timer installed. -/
def mountedPollState : PollState := startLoad initialPollState

/-! ### Mutation request builder (ConfigView.vue) -/

/-- The reactive `fileData` accumulators (ConfigView.vue lines 33-38). -/
structure FileData where
  add_files : List FileItem
  remove_files : List String
  replace_all : Bool
  replace_files : List FileItem
deriving DecidableEq

/-- The `fileMode` selector (ConfigView.vue line 50). -/
inductive FileMode where
  | add
  | remove
  | replace
deriving DecidableEq

/-- `fileData` as initialised: one blank add row, nothing selected,
replace-all off, no replace rows. -/
def initialFileData : FileData :=
  { add_files := [{ filename := "", path := "" }],
    remove_files := [],
    replace_all := false,
    replace_files := [] }

/-- JS truthiness of `s.trim()`: the trimmed string is non-empty exactly
when `s` holds at least one non-whitespace character. The view only ever
uses `trim()` inside boolean tests (the rows themselves are sent
untrimmed), so blankness is modelled as this predicate directly. -/
def isNonBlank (s : String) : Bool := s.data.any (fun c => !c.isWhitespace)

/-- The row filter used throughout the view:
`f.filename.trim() && f.path.trim()`. -/
def validRow (f : FileItem) : Bool := isNonBlank f.filename && isNonBlank f.path

/-- The `hasFileChanges` computed property (ConfigView.vue lines 74-84). -/
def hasFileChanges : FileMode → FileData → Bool
  | .add, fd => fd.add_files.any validRow
  | .remove, fd => decide (0 < fd.remove_files.length)
  | .replace, fd => fd.replace_all || fd.replace_files.any validRow

/-- The request constructed inside `updateFileConfig`
(ConfigView.vue lines 193-208): all four fields start empty or false, then
exactly the branch of the active mode assigns its field from the
corresponding accumulator, filtering blank entries. -/
def buildUpdateFilesRequest : FileMode → FileData → UpdateFilesRequest
  | .add, fd =>
      { add_files := fd.add_files.filter validRow,
        remove_files := [], replace_all := false, replace_files := [] }
  | .remove, fd =>
      { add_files := [],
        remove_files := fd.remove_files.filter isNonBlank,
        replace_all := false, replace_files := [] }
  | .replace, fd =>
      { add_files := [], remove_files := [],
        replace_all := fd.replace_all,
        replace_files := fd.replace_files.filter validRow }

/-- The form reset performed by `updateFileConfig` after a successful
submission (ConfigView.vue lines 217-225): add mode restores the single
blank row, remove mode clears the selection, replace mode clears the rows
only when `replace_all` is set and never resets the flag itself. -/
def resetAfterSuccess : FileMode → FileData → FileData
  | .add, fd => { fd with add_files := [{ filename := "", path := "" }] }
  | .remove, fd => { fd with remove_files := [] }
  | .replace, fd =>
      if fd.replace_all then { fd with replace_files := [] } else fd

/-- `addFileRow` (line 156): push a blank add row. -/
def addFileRow (fd : FileData) : FileData :=
  { fd with add_files := fd.add_files ++ [{ filename := "", path := "" }] }

/-- `removeFileRow` (line 160): splice one add row out. JS
`splice(i, 1)` with `i` out of range removes nothing, matching
`List.eraseIdx`. -/
def removeFileRow (i : Nat) (fd : FileData) : FileData :=
  { fd with add_files := fd.add_files.eraseIdx i }

/-- The remove-row button as the operator can actually invoke it: the
template disables it when `fileData.add_files.length <= 1`
(ConfigView.vue, the `:disabled` binding of the remove button in the add
rows), so the click is a no-op on the last remaining row. -/
def clickRemoveFileRow (i : Nat) (fd : FileData) : FileData :=
  if fd.add_files.length ≤ 1 then fd else removeFileRow i fd

/-- Editing one add row through its two-way bound inputs
(`v-model` on `fileData.add_files[index]`); out-of-range indices leave the
list unchanged. -/
def setAddRow (i : Nat) (f : FileItem) (fd : FileData) : FileData :=
  { fd with add_files := fd.add_files.set i f }

/-- `toggleFileSelection` (lines 164-171): push the name if absent,
otherwise splice out its first occurrence. -/
def toggleFileSelection (name : String) (fd : FileData) : FileData :=
  if fd.remove_files.contains name then
    { fd with remove_files := fd.remove_files.erase name }
  else
    { fd with remove_files := fd.remove_files ++ [name] }

/-- `selectAllFiles` (line 173): the selection becomes the names of the
currently listed files. -/
def selectAllFiles (cur : List String) (fd : FileData) : FileData :=
  { fd with remove_files := cur }

/-- `deselectAllFiles` (line 177). -/
def deselectAllFiles (fd : FileData) : FileData :=
  { fd with remove_files := [] }

/-- `addReplaceFileRow` (line 181). -/
def addReplaceFileRow (fd : FileData) : FileData :=
  { fd with replace_files := fd.replace_files ++ [{ filename := "", path := "" }] }

/-- `removeReplaceFileRow` (line 185); the replace rows have no
last-row guard. -/
def removeReplaceFileRow (i : Nat) (fd : FileData) : FileData :=
  { fd with replace_files := fd.replace_files.eraseIdx i }

/-- Editing one replace row through its bound inputs. -/
def setReplaceRow (i : Nat) (f : FileItem) (fd : FileData) : FileData :=
  { fd with replace_files := fd.replace_files.set i f }

/-- The replace-all checkbox (`v-model` on `fileData.replace_all`). -/
def setReplaceAll (b : Bool) (fd : FileData) : FileData :=
  { fd with replace_all := b }

/-- Every mutation of `fileData` the operator can perform in the
file-management view, plus the post-success reset. -/
inductive BuilderAction where
  | addRow
  | clickRemoveRow (i : Nat)
  | editAddRow (i : Nat) (f : FileItem)
  | toggleSelection (name : String)
  | selectAll (cur : List String)
  | clearSelection
  | addReplaceRow
  | removeReplaceRow (i : Nat)
  | editReplaceRow (i : Nat) (f : FileItem)
  | setAllReplace (b : Bool)
  | submitSuccess (mode : FileMode)

/-- Interpret one operator action on the accumulators. -/
def applyBuilderAction (fd : FileData) : BuilderAction → FileData
  | .addRow => addFileRow fd
  | .clickRemoveRow i => clickRemoveFileRow i fd
  | .editAddRow i f => setAddRow i f fd
  | .toggleSelection n => toggleFileSelection n fd
  | .selectAll cur => selectAllFiles cur fd
  | .clearSelection => deselectAllFiles fd
  | .addReplaceRow => addReplaceFileRow fd
  | .removeReplaceRow i => removeReplaceFileRow i fd
  | .editReplaceRow i f => setReplaceRow i f fd
  | .setAllReplace b => setReplaceAll b fd
  | .submitSuccess m => resetAfterSuccess m fd

/-- Run a sequence of operator actions from the initial accumulators. -/
def runBuilder (acts : List BuilderAction) : FileData :=
  acts.foldl applyBuilderAction initialFileData

/-- The `hasChanges` computed property guarding the basic-config form
(ConfigView.vue lines 65-72): false while no baseline has been loaded,
otherwise a field-by-field comparison with `config.proxy || ""` as the
baseline proxy. -/
def hasChanges (config : Option GetConfigResponse) (form : ConfigForm) : Bool :=
  match config with
  | none => false
  | some c =>
      (form.url != c.url) || (form.storage_dir != c.storage_dir) ||
      (form.interval_secs != c.interval_secs) || (form.proxy != c.proxy.getD "")

/-! ## Builder theorems -/

/-- C7: `build()` serializes only the accumulator of the active mode, the
other request fields stay empty or false, and rows with a blank
(whitespace-only included) filename or path are filtered out; in
particular the add-mode scenario with one blank-named row yields only the
valid row. -/
theorem buildRequest_active_mode_only (fd : FileData) :
    (buildUpdateFilesRequest .add fd).remove_files = [] ∧
    (buildUpdateFilesRequest .add fd).replace_all = false ∧
    (buildUpdateFilesRequest .add fd).replace_files = [] ∧
    (buildUpdateFilesRequest .add fd).add_files = fd.add_files.filter validRow ∧
    (buildUpdateFilesRequest .remove fd).add_files = [] ∧
    (buildUpdateFilesRequest .remove fd).replace_all = false ∧
    (buildUpdateFilesRequest .remove fd).replace_files = [] ∧
    (buildUpdateFilesRequest .remove fd).remove_files
      = fd.remove_files.filter isNonBlank ∧
    (buildUpdateFilesRequest .replace fd).add_files = [] ∧
    (buildUpdateFilesRequest .replace fd).remove_files = [] ∧
    buildUpdateFilesRequest .add
      { add_files := [{ filename := "", path := "x" }, { filename := "f", path := "p" }],
        remove_files := [], replace_all := false, replace_files := [] }
      = { add_files := [{ filename := "f", path := "p" }],
          remove_files := [], replace_all := false, replace_files := [] } ∧
    buildUpdateFilesRequest .add
      { add_files := [{ filename := " ", path := "p" }],
        remove_files := [], replace_all := false, replace_files := [] }
      = { add_files := [], remove_files := [], replace_all := false,
          replace_files := [] } := by
  refine ⟨rfl, rfl, rfl, rfl, rfl, rfl, rfl, rfl, rfl, rfl, ?_, ?_⟩ <;> decide

/-- C4 counterexample: in replace mode with `replace_all = true` and one
valid replacement row, the serialized `replace_files` is that row, not the
empty sequence the claim requires. -/
theorem buildRequest_replaceAll_cex :
    (buildUpdateFilesRequest .replace
      { add_files := [{ filename := "", path := "" }], remove_files := [],
        replace_all := true,
        replace_files := [{ filename := "f", path := "p" }] }).replace_files
      = [{ filename := "f", path := "p" }] ∧
    decide ((buildUpdateFilesRequest .replace
      { add_files := [{ filename := "", path := "" }], remove_files := [],
        replace_all := true,
        replace_files := [{ filename := "f", path := "p" }] }).replace_files
      = ([] : List FileItem)) = false := by
  constructor <;> decide

/-- C4 (amended): in replace mode with `replace_all = true`, `build()`
serializes `replace_all = true` together with the non-blank replacement
rows; the accumulator is still serialized after filtering, so editing the
rows does change the request. -/
theorem buildRequest_replace_serializes_rows (fd : FileData)
    (h : fd.replace_all = true) :
    (buildUpdateFilesRequest .replace fd).replace_all = true ∧
    (buildUpdateFilesRequest .replace fd).replace_files
      = fd.replace_files.filter validRow ∧
    decide (buildUpdateFilesRequest .replace
        (setReplaceRow 0 { filename := "g", path := "q" }
          { add_files := [{ filename := "", path := "" }], remove_files := [],
            replace_all := true,
            replace_files := [{ filename := "f", path := "p" }] })
      = buildUpdateFilesRequest .replace
          { add_files := [{ filename := "", path := "" }], remove_files := [],
            replace_all := true,
            replace_files := [{ filename := "f", path := "p" }] }) = false := by
  refine ⟨by simp [buildUpdateFilesRequest, h], rfl, by decide⟩

/-- C4 (amended) witness at a concrete replace-all state. -/
theorem buildRequest_replace_serializes_rows_witness :
    (buildUpdateFilesRequest .replace
      { add_files := [{ filename := "", path := "" }], remove_files := [],
        replace_all := true,
        replace_files := [{ filename := "f", path := "p" }] }).replace_files
      = ({ add_files := [{ filename := "", path := "" }], remove_files := [],
           replace_all := true,
           replace_files := [{ filename := "f", path := "p" }] } :
          FileData).replace_files.filter validRow :=
  (buildRequest_replace_serializes_rows
    { add_files := [{ filename := "", path := "" }], remove_files := [],
      replace_all := true,
      replace_files := [{ filename := "f", path := "p" }] } rfl).2.1

/-- C5 counterexample: with replace mode active and `replace_all` set, the
submit precondition `hasFileChanges` holds, yet after the successful-submit
reset it still holds, because the reset clears only the rows and never the
`replace_all` flag. -/
theorem hasFileChanges_after_submit_cex :
    hasFileChanges .replace
      { add_files := [{ filename := "", path := "" }], remove_files := [],
        replace_all := true, replace_files := [] } = true ∧
    hasFileChanges .replace
      (resetAfterSuccess .replace
        { add_files := [{ filename := "", path := "" }], remove_files := [],
          replace_all := true, replace_files := [] }) = true := by
  constructor <;> decide

/-- C5 (amended): `hasFileChanges` is false right after construction and
right after a successful submit cycle in add and remove modes, and becomes
true after a single valid edit (a valid add row, a new selection, or
setting replace-all); in replace mode the reset does not fully clear the
accumulator, so it can stay true there. -/
theorem hasFileChanges_lifecycle :
    hasFileChanges .add initialFileData = false ∧
    (∀ fd, hasFileChanges .add (resetAfterSuccess .add fd) = false) ∧
    (∀ fd, hasFileChanges .remove (resetAfterSuccess .remove fd) = false) ∧
    (∀ fd i f, i < fd.add_files.length → validRow f = true →
        hasFileChanges .add (setAddRow i f fd) = true) ∧
    (∀ fd n, fd.remove_files.contains n = false →
        hasFileChanges .remove (toggleFileSelection n fd) = true) ∧
    (∀ fd, hasFileChanges .replace (setReplaceAll true fd) = true) := by
  have validRow_blank : validRow { filename := "", path := "" } = false := by decide
  refine ⟨by decide, fun fd => ?_, fun fd => rfl, ?_, ?_, ?_⟩
  · simp [hasFileChanges, resetAfterSuccess, validRow_blank]
  · intro fd i f hi hf
    simp only [hasFileChanges, setAddRow, List.any_eq_true]
    exact ⟨f, List.mem_set fd.add_files i hi f, hf⟩
  · intro fd n hn
    have hn2 : n ∉ fd.remove_files := by simpa using hn
    simp [hasFileChanges, toggleFileSelection, hn2]
  · intro fd
    simp [hasFileChanges, setReplaceAll]

/-- C5 (amended) witness: concrete valid edits flip the flag from its
initial false. -/
theorem hasFileChanges_lifecycle_witness :
    hasFileChanges .add
      (setAddRow 0 { filename := "f", path := "p" } initialFileData) = true ∧
    hasFileChanges .remove
      (toggleFileSelection "a" initialFileData) = true :=
  ⟨hasFileChanges_lifecycle.2.2.2.1 initialFileData 0
      { filename := "f", path := "p" } (by decide) (by decide),
   hasFileChanges_lifecycle.2.2.2.2.1 initialFileData "a" (by decide)⟩

/-- C8: the remove-row control is disabled on the last add row, so it is a
no-op there, and no sequence of operator actions can empty the add
accumulator. -/
theorem add_rows_never_empty :
    (∀ fd i, fd.add_files.length = 1 → clickRemoveFileRow i fd = fd) ∧
    (∀ acts, 1 ≤ (runBuilder acts).add_files.length) := by
  constructor
  · intro fd i h
    simp [clickRemoveFileRow, h]
  · have step : ∀ fd a, 1 ≤ fd.add_files.length →
        1 ≤ (applyBuilderAction fd a).add_files.length := by
      intro fd a h
      cases a with
      | addRow => simp [applyBuilderAction, addFileRow]
      | clickRemoveRow i =>
          simp only [applyBuilderAction, clickRemoveFileRow]
          split
          · exact h
          · rename_i hlen
            simp only [removeFileRow, List.length_eraseIdx]
            split <;> omega
      | editAddRow i f => simpa [applyBuilderAction, setAddRow] using h
      | toggleSelection n =>
          simp only [applyBuilderAction, toggleFileSelection]
          split <;> exact h
      | selectAll cur => exact h
      | clearSelection => exact h
      | addReplaceRow => exact h
      | removeReplaceRow i => exact h
      | editReplaceRow i f => exact h
      | setAllReplace b => exact h
      | submitSuccess m =>
          cases m with
          | add => simp [applyBuilderAction, resetAfterSuccess]
          | remove => exact h
          | replace =>
              simp only [applyBuilderAction, resetAfterSuccess]
              split <;> exact h
    intro acts
    have general : ∀ (l : List BuilderAction) (fd : FileData),
        1 ≤ fd.add_files.length →
        1 ≤ (l.foldl applyBuilderAction fd).add_files.length := by
      intro l
      induction l with
      | nil => intro fd h; exact h
      | cons a t ih => intro fd h; exact ih _ (step fd a h)
    exact general acts initialFileData (by decide)

/-- C8 witness: removing the only row of the initial form is a no-op, and
a short action sequence keeps at least one row. -/
theorem add_rows_never_empty_witness :
    clickRemoveFileRow 0 initialFileData = initialFileData ∧
    1 ≤ (runBuilder [.addRow, .clickRemoveRow 0, .clickRemoveRow 0]).add_files.length :=
  ⟨add_rows_never_empty.1 initialFileData 0 (by decide),
   add_rows_never_empty.2 [.addRow, .clickRemoveRow 0, .clickRemoveRow 0]⟩

/-- C10: the dirty guard of the basic-config form reports no changes
whenever no baseline configuration has been loaded, whatever the form
holds. -/
theorem hasChanges_false_without_baseline (form : ConfigForm) :
    hasChanges none form = false := rfl

/-! ## Percent theorems -/

/-- C3 evidence: at `total = 0` the displayed per-file percent is
non-finite (JS `NaN`), where the claim demands `0`; at
`downloaded = 3, total = 2` it shows `150`, where the claim demands the
clamped `100`. The specified value differs from the displayed one at both
inputs. -/
theorem filePercent_divergence :
    filePercentDisplayed 0 0 = none ∧
    filePercentSpec 0 0 = 0 ∧
    filePercentDisplayed 3 2 = some 150 ∧
    filePercentSpec 3 2 = 100 := by
  refine ⟨rfl, rfl, ?_, ?_⟩
  · simp only [filePercentDisplayed, jsRound]
    norm_num
  · simp only [filePercentSpec, jsRound]
    rw [min_eq_left (by norm_num)]
    norm_num

/-! ## Poller theorems -/

/-- C2 evidence: from the mounted state, whose initial fetch is still
outstanding, the first timer tick starts a second concurrent fetch — the
overlapping tick is not skipped. -/
theorem overlapping_tick_second_fetch :
    (pollStep mountedPollState .tick).inFlight = 2 ∧
    decide ((pollStep mountedPollState .tick).inFlight ≤ 1) = false := by
  constructor <;> decide

/-- C9: a failed fetch stores its message as a transient error value, the
timer stays installed, and the next tick issues a fresh fetch. -/
theorem fetch_failure_transient (s : PollState) (m : String)
    (ht : s.timerActive = true) :
    (pollStep s (.fetchResolved (.err m))).error = some m ∧
    (pollStep s (.fetchResolved (.err m))).loading = false ∧
    (pollStep s (.fetchResolved (.err m))).timerActive = true ∧
    pollStep (pollStep s (.fetchResolved (.err m))) .tick
      = startLoad (pollStep s (.fetchResolved (.err m))) ∧
    (pollStep (pollStep s (.fetchResolved (.err m))) .tick).inFlight
      = (pollStep s (.fetchResolved (.err m))).inFlight + 1 := by
  refine ⟨rfl, rfl, ht, ?_, ?_⟩ <;> simp [pollStep, finishLoad, startLoad, ht]

/-- C9 witness at the freshly initialised state. -/
theorem fetch_failure_transient_witness :
    (pollStep initialPollState (.fetchResolved (.err "boom"))).error
      = some "boom" :=
  (fetch_failure_transient initialPollState "boom" rfl).1

/-! ## Reconciler lemmas -/

theorem contains_eq_decide_mem (l : List String) (x : String) :
    l.contains x = decide (x ∈ l) := by
  by_cases h : x ∈ l <;> simp [h]

theorem appendNew_cons (o : List String) (k : String) (ks : List String) :
    appendNew o (k :: ks) = appendNew (if o.contains k then o else o ++ [k]) ks := rfl

theorem mem_appendNew (incoming o : List String) (x : String) :
    x ∈ appendNew o incoming ↔ x ∈ o ∨ x ∈ incoming := by
  induction incoming generalizing o with
  | nil => simp [appendNew]
  | cons k ks ih =>
    rw [appendNew_cons]
    by_cases hc : k ∈ o
    · rw [if_pos (by simp [contains_eq_decide_mem, hc]), ih]
      constructor
      · exact fun h => h.elim Or.inl (fun h1 => Or.inr (List.mem_cons_of_mem _ h1))
      · rintro (h1 | h1)
        · exact Or.inl h1
        · rcases List.mem_cons.mp h1 with rfl | h2
          · exact Or.inl hc
          · exact Or.inr h2
    · rw [if_neg (by simp [contains_eq_decide_mem, hc]), ih]
      simp [List.mem_append, List.mem_cons, or_assoc]

theorem appendNew_eq (incoming : List String) (h : incoming.Nodup) (o : List String) :
    appendNew o incoming = o ++ incoming.filter (fun x => !o.contains x) := by
  induction incoming generalizing o with
  | nil => simp [appendNew]
  | cons k ks ih =>
    have hk : k ∉ ks := (List.nodup_cons.mp h).1
    have hks : ks.Nodup := (List.nodup_cons.mp h).2
    rw [appendNew_cons]
    by_cases hc : k ∈ o
    · rw [if_pos (by simp [contains_eq_decide_mem, hc]), ih hks o]
      congr 1
      rw [List.filter_cons, if_neg (by simp [contains_eq_decide_mem, hc])]
    · rw [if_neg (by simp [contains_eq_decide_mem, hc]), ih hks (o ++ [k])]
      have hfc : ks.filter (fun x => !(o ++ [k]).contains x)
          = ks.filter (fun x => !o.contains x) := by
        apply List.filter_congr
        intro x hx
        have hxk : x ≠ k := fun e => hk (e ▸ hx)
        simp [contains_eq_decide_mem, hxk]
      rw [hfc, List.filter_cons, if_pos (by simp [contains_eq_decide_mem, hc])]
      simp

theorem updateFileOrder_eq (incoming : List String) (h : incoming.Nodup)
    (o : List String) :
    updateFileOrder o incoming
      = o.filter (fun x => incoming.contains x)
        ++ incoming.filter (fun x => !o.contains x) := by
  rw [updateFileOrder, appendNew_eq incoming h o, List.filter_append]
  congr 1
  apply List.filter_eq_self.mpr
  intro x hx
  have hxi : x ∈ incoming := (List.mem_filter.mp hx).1
  simp [contains_eq_decide_mem, hxi]

theorem mem_updateFileOrder (o incoming : List String) (x : String) :
    x ∈ updateFileOrder o incoming ↔ x ∈ incoming := by
  rw [updateFileOrder, List.mem_filter]
  constructor
  · intro h
    simpa [contains_eq_decide_mem] using h.2
  · intro h
    exact ⟨(mem_appendNew incoming o x).mpr (Or.inr h),
      by simp [contains_eq_decide_mem, h]⟩

theorem nodup_updateFileOrder (o incoming : List String) (ho : o.Nodup)
    (hi : incoming.Nodup) : (updateFileOrder o incoming).Nodup := by
  rw [updateFileOrder_eq incoming hi o]
  refine (ho.filter _).append (hi.filter _) ?_
  intro x hx1 hx2
  have h1 : x ∈ o := (List.mem_filter.mp hx1).1
  have h2 := (List.mem_filter.mp hx2).2
  simp [contains_eq_decide_mem, h1] at h2

theorem jsIndexOf_of_mem {l : List String} {x : String} (h : x ∈ l) :
    jsIndexOf l x = (List.indexOf x l : Int) := if_pos h

theorem jsIndexOf_of_not_mem {l : List String} {x : String} (h : x ∉ l) :
    jsIndexOf l x = -1 := if_neg h

theorem jsIndexOf_ne_neg_one {l : List String} {x : String} (h : x ∈ l) :
    ¬ jsIndexOf l x = -1 := by
  rw [jsIndexOf_of_mem h]
  omega

theorem jsIndexOf_eq_neg_one_iff (l : List String) (x : String) :
    jsIndexOf l x = -1 ↔ x ∉ l := by
  by_cases h : x ∈ l
  · exact ⟨fun he => absurd he (jsIndexOf_ne_neg_one h), fun hn => absurd h hn⟩
  · simp [jsIndexOf_of_not_mem h, h]

theorem cmpFiles_of_mem {order : List String} {a b : FileProgressResponse}
    (ha : a.file ∈ order) (hb : b.file ∈ order) :
    cmpFiles order a b
      = (List.indexOf a.file order : Int) - List.indexOf b.file order := by
  rw [cmpFiles, if_neg (fun h => jsIndexOf_ne_neg_one ha h.1),
    if_neg (jsIndexOf_ne_neg_one ha), if_neg (jsIndexOf_ne_neg_one hb),
    jsIndexOf_of_mem ha, jsIndexOf_of_mem hb]

theorem cmpFiles_of_not_mem_left {order : List String} {a b : FileProgressResponse}
    (ha : a.file ∉ order) (hb : b.file ∈ order) : cmpFiles order a b = 1 := by
  rw [cmpFiles, if_neg (fun h => jsIndexOf_ne_neg_one hb h.2),
    if_pos ((jsIndexOf_eq_neg_one_iff order a.file).mpr ha)]

theorem cmpFiles_of_not_mem_right {order : List String} {a b : FileProgressResponse}
    (ha : a.file ∈ order) (hb : b.file ∉ order) : cmpFiles order a b = -1 := by
  rw [cmpFiles, if_neg (fun h => jsIndexOf_ne_neg_one ha h.1),
    if_neg (jsIndexOf_ne_neg_one ha),
    if_pos ((jsIndexOf_eq_neg_one_iff order b.file).mpr hb)]

theorem cmpFiles_of_not_mem_both {order : List String} {a b : FileProgressResponse}
    (ha : a.file ∉ order) (hb : b.file ∉ order) :
    cmpFiles order a b = localeCompare a.file b.file := by
  rw [cmpFiles, if_pos ⟨(jsIndexOf_eq_neg_one_iff order a.file).mpr ha,
    (jsIndexOf_eq_neg_one_iff order b.file).mpr hb⟩]

theorem localeCompare_le_zero_iff (a b : String) :
    localeCompare a b ≤ 0 ↔ a ≤ b := by
  unfold localeCompare
  rcases lt_trichotomy a b with h | h | h
  · rw [if_pos h]
    simp [le_of_lt h]
  · subst h
    rw [if_neg (lt_irrefl a), if_neg (lt_irrefl a)]
    simp
  · rw [if_neg (asymm h), if_pos h]
    constructor
    · intro hx
      exact absurd hx (by norm_num)
    · intro hx
      exact absurd hx (not_le.mpr h)

theorem cmpLe_total (order : List String) :
    ∀ a b, cmpLe order a b ∨ cmpLe order b a := by
  intro a b
  unfold cmpLe
  by_cases ha : a.file ∈ order <;> by_cases hb : b.file ∈ order
  · rw [cmpFiles_of_mem ha hb, cmpFiles_of_mem hb ha]
    omega
  · left
    rw [cmpFiles_of_not_mem_right ha hb]
    omega
  · right
    rw [cmpFiles_of_not_mem_right hb ha]
    omega
  · rcases le_total a.file b.file with h | h
    · left
      rw [cmpFiles_of_not_mem_both ha hb]
      exact (localeCompare_le_zero_iff _ _).mpr h
    · right
      rw [cmpFiles_of_not_mem_both hb ha]
      exact (localeCompare_le_zero_iff _ _).mpr h

theorem cmpLe_trans (order : List String) :
    ∀ a b c, cmpLe order a b → cmpLe order b c → cmpLe order a c := by
  intro a b c hab hbc
  unfold cmpLe at hab hbc ⊢
  by_cases ha : a.file ∈ order <;> by_cases hb : b.file ∈ order <;>
    by_cases hc : c.file ∈ order
  · rw [cmpFiles_of_mem ha hb] at hab
    rw [cmpFiles_of_mem hb hc] at hbc
    rw [cmpFiles_of_mem ha hc]
    omega
  · rw [cmpFiles_of_not_mem_right ha hc]
    omega
  · rw [cmpFiles_of_not_mem_left hb hc] at hbc
    omega
  · rw [cmpFiles_of_not_mem_right ha hc]
    omega
  · rw [cmpFiles_of_not_mem_left ha hb] at hab
    omega
  · rw [cmpFiles_of_not_mem_left ha hb] at hab
    omega
  · rw [cmpFiles_of_not_mem_left hb hc] at hbc
    omega
  · rw [cmpFiles_of_not_mem_both ha hb] at hab
    rw [cmpFiles_of_not_mem_both hb hc] at hbc
    rw [cmpFiles_of_not_mem_both ha hc]
    exact (localeCompare_le_zero_iff _ _).mpr
      (le_trans ((localeCompare_le_zero_iff _ _).mp hab)
        ((localeCompare_le_zero_iff _ _).mp hbc))

theorem pairwise_indexOf_lt (l : List String) (h : l.Nodup) :
    l.Pairwise (fun a b => List.indexOf a l < List.indexOf b l) := by
  rw [List.pairwise_iff_get]
  intro i j hij
  rw [List.get_indexOf h i, List.get_indexOf h j]
  exact hij

theorem map_file_filesComputed (order : List String)
    (l : List FileProgressResponse) (ho : order.Nodup)
    (hl : (l.map FileProgressResponse.file).Nodup)
    (hcov : ∀ f ∈ l, f.file ∈ order) :
    (filesComputed order l).map FileProgressResponse.file
      = order.filter
          (fun x => (l.map FileProgressResponse.file).contains x) := by
  haveI : IsTotal FileProgressResponse (cmpLe order) := ⟨cmpLe_total order⟩
  haveI : IsTrans FileProgressResponse (cmpLe order) :=
    ⟨fun a b c => cmpLe_trans order a b c⟩
  unfold filesComputed
  have hperm : (l.insertionSort (cmpLe order)).Perm l :=
    List.perm_insertionSort (cmpLe order) l
  have hpermNames :
      ((l.insertionSort (cmpLe order)).map FileProgressResponse.file).Perm
        (l.map FileProgressResponse.file) := hperm.map _
  have hnodupNames :
      ((l.insertionSort (cmpLe order)).map FileProgressResponse.file).Nodup :=
    hpermNames.nodup_iff.mpr hl
  have hsorted : (l.insertionSort (cmpLe order)).Pairwise (cmpLe order) :=
    List.sorted_insertionSort (cmpLe order) l
  have hne : (l.insertionSort (cmpLe order)).Pairwise
      (fun f g => f.file ≠ g.file) := List.pairwise_map.mp hnodupNames
  have hstrict : (l.insertionSort (cmpLe order)).Pairwise
      (fun f g => List.indexOf f.file order < List.indexOf g.file order) := by
    refine (hsorted.and hne).imp_of_mem ?_
    intro f g hf hg hfg
    obtain ⟨hle, hneq⟩ := hfg
    have hfo := hcov f (hperm.mem_iff.mp hf)
    have hgo := hcov g (hperm.mem_iff.mp hg)
    have h1 : (List.indexOf f.file order : Int)
        - List.indexOf g.file order ≤ 0 := by
      rw [← cmpFiles_of_mem hfo hgo]
      exact hle
    have h2 : List.indexOf f.file order ≠ List.indexOf g.file order :=
      fun he => hneq ((List.indexOf_inj hfo hgo).mp he)
    omega
  have hlhsPairwise :
      ((l.insertionSort (cmpLe order)).map FileProgressResponse.file).Pairwise
        (fun a b => List.indexOf a order < List.indexOf b order) :=
    List.pairwise_map.mpr hstrict
  have htarget :
      (order.filter
        (fun x => (l.map FileProgressResponse.file).contains x)).Pairwise
        (fun a b => List.indexOf a order < List.indexOf b order) :=
    (pairwise_indexOf_lt order ho).sublist (List.filter_sublist order)
  have hmsides : ∀ x,
      x ∈ (l.insertionSort (cmpLe order)).map FileProgressResponse.file ↔
      x ∈ order.filter
        (fun y => (l.map FileProgressResponse.file).contains y) := by
    intro x
    rw [List.mem_filter]
    constructor
    · intro hx
      have hx2 : x ∈ l.map FileProgressResponse.file := hpermNames.mem_iff.mp hx
      obtain ⟨f, hfl, rfl⟩ := List.mem_map.mp hx2
      exact ⟨hcov f hfl, by simp [contains_eq_decide_mem, hx2]⟩
    · intro hx
      have : x ∈ l.map FileProgressResponse.file := by
        simpa [contains_eq_decide_mem] using hx.2
      exact hpermNames.mem_iff.mpr this
  have hperm2 :
      ((l.insertionSort (cmpLe order)).map FileProgressResponse.file).Perm
        (order.filter
          (fun x => (l.map FileProgressResponse.file).contains x)) :=
    (List.perm_ext_iff_of_nodup hnodupNames (ho.filter _)).mpr hmsides
  haveI : IsAntisymm String
      (fun a b => List.indexOf a order < List.indexOf b order) :=
    ⟨fun a b h1 h2 => absurd (h1.trans h2) (lt_irrefl _)⟩
  exact List.eq_of_perm_of_sorted hperm2 hlhsPairwise htarget

theorem displayedNames_eq (o : List String) (l : List FileProgressResponse)
    (ho : o.Nodup) (hl : (l.map FileProgressResponse.file).Nodup) :
    displayedNames o l = updateFileOrder o (l.map FileProgressResponse.file) := by
  unfold displayedNames
  rw [map_file_filesComputed (updateFileOrder o (l.map FileProgressResponse.file)) l
      (nodup_updateFileOrder o _ ho hl) hl
      (fun f hf => (mem_updateFileOrder o _ f.file).mpr (List.mem_map_of_mem _ hf))]
  apply List.filter_eq_self.mpr
  intro x hx
  have hxm : x ∈ l.map FileProgressResponse.file :=
    (mem_updateFileOrder o _ x).mp hx
  simp [contains_eq_decide_mem, hxm]

/-! ## Reconciler theorems -/

/-- C1: across two consecutive merges of snapshots with distinct file
names, the displayed name sequences, restricted to the names present in
both snapshots, are identical — the reconciler never reorders survivors. -/
theorem reconciler_order_stability (o : List String)
    (s1 s2 : List FileProgressResponse) (ho : o.Nodup)
    (h1 : (s1.map FileProgressResponse.file).Nodup)
    (h2 : (s2.map FileProgressResponse.file).Nodup) :
    (displayedNames o s1).filter (fun n =>
        (s1.map FileProgressResponse.file).contains n &&
        (s2.map FileProgressResponse.file).contains n)
      = (displayedNames (updateFileOrder o (s1.map FileProgressResponse.file))
          s2).filter (fun n =>
        (s1.map FileProgressResponse.file).contains n &&
        (s2.map FileProgressResponse.file).contains n) := by
  rw [displayedNames_eq o s1 ho h1,
    displayedNames_eq (updateFileOrder o (s1.map FileProgressResponse.file)) s2
      (nodup_updateFileOrder o _ ho h1) h2,
    updateFileOrder_eq (s2.map FileProgressResponse.file) h2
      (updateFileOrder o (s1.map FileProgressResponse.file)),
    List.filter_append]
  have hempty : ((s2.map FileProgressResponse.file).filter (fun x =>
        !(updateFileOrder o (s1.map FileProgressResponse.file)).contains x)).filter
      (fun n =>
        (s1.map FileProgressResponse.file).contains n &&
        (s2.map FileProgressResponse.file).contains n) = [] := by
    rw [List.filter_eq_nil_iff]
    intro x hx
    have hno : x ∉ updateFileOrder o (s1.map FileProgressResponse.file) := by
      have := (List.mem_filter.mp hx).2
      simpa [contains_eq_decide_mem] using this
    have hk1 : x ∉ s1.map FileProgressResponse.file :=
      fun hmem => hno ((mem_updateFileOrder o _ x).mpr hmem)
    simp [contains_eq_decide_mem, hk1]
  rw [hempty, List.append_nil, List.filter_filter]
  apply List.filter_congr
  intro x hx
  cases hc1 : (s1.map FileProgressResponse.file).contains x <;>
    cases hc2 : (s2.map FileProgressResponse.file).contains x <;> simp [hc1, hc2]

/-- C1 witness at the scenario of the spec: snapshot `{a, b}` followed by
snapshot `{b, c}`. -/
theorem reconciler_order_stability_witness :
    (displayedNames []
        [⟨"a", 0, 0, false, none⟩, ⟨"b", 0, 0, false, none⟩]).filter (fun n =>
        (([⟨"a", 0, 0, false, none⟩,
            ⟨"b", 0, 0, false, none⟩].map FileProgressResponse.file).contains n &&
          (([⟨"b", 0, 0, false, none⟩,
            ⟨"c", 0, 0, false, none⟩].map FileProgressResponse.file).contains n)))
      = (displayedNames
          (updateFileOrder []
            ([⟨"a", 0, 0, false, none⟩,
              ⟨"b", 0, 0, false, none⟩].map FileProgressResponse.file))
          [⟨"b", 0, 0, false, none⟩, ⟨"c", 0, 0, false, none⟩]).filter (fun n =>
        (([⟨"a", 0, 0, false, none⟩,
            ⟨"b", 0, 0, false, none⟩].map FileProgressResponse.file).contains n &&
          (([⟨"b", 0, 0, false, none⟩,
            ⟨"c", 0, 0, false, none⟩].map FileProgressResponse.file).contains n))) :=
  reconciler_order_stability []
    [⟨"a", 0, 0, false, none⟩, ⟨"b", 0, 0, false, none⟩]
    [⟨"b", 0, 0, false, none⟩, ⟨"c", 0, 0, false, none⟩]
    (by decide) (by decide) (by decide)

/-- C6 counterexample: from an empty display order, a snapshot whose keys
enumerate as `b` then `a` is displayed as `[b, a]` — the two new names are
appended in snapshot enumeration order, not in the ascending lexicographic
order `[a, b]` the claim requires. -/
theorem lexicographic_append_cex :
    displayedNames [] [⟨"b", 0, 0, false, none⟩, ⟨"a", 0, 0, false, none⟩]
      = ["b", "a"] ∧
    decide (displayedNames []
        [⟨"b", 0, 0, false, none⟩, ⟨"a", 0, 0, false, none⟩]
      = ["a", "b"]) = false := by
  constructor <;> decide

/-- C6 (amended): names of a merged snapshot that are not yet in the
display order are appended at the end, after the surviving names, in the
snapshot key-enumeration order (not sorted lexicographically); they are
never interleaved among the existing names. -/
theorem new_names_appended_last (o : List String)
    (l : List FileProgressResponse) (ho : o.Nodup)
    (hl : (l.map FileProgressResponse.file).Nodup) :
    displayedNames o l
      = o.filter (fun x => (l.map FileProgressResponse.file).contains x)
        ++ (l.map FileProgressResponse.file).filter
            (fun x => !o.contains x) := by
  rw [displayedNames_eq o l ho hl, updateFileOrder_eq _ hl o]

/-- C6 (amended) witness: one surviving name and two new names. -/
theorem new_names_appended_last_witness :
    displayedNames ["x"]
        [⟨"x", 0, 0, false, none⟩, ⟨"b", 0, 0, false, none⟩,
          ⟨"a", 0, 0, false, none⟩]
      = (["x"].filter (fun s =>
          (([⟨"x", 0, 0, false, none⟩, ⟨"b", 0, 0, false, none⟩,
              ⟨"a", 0, 0, false, none⟩].map FileProgressResponse.file).contains s)))
        ++ (([⟨"x", 0, 0, false, none⟩, ⟨"b", 0, 0, false, none⟩,
              ⟨"a", 0, 0, false, none⟩].map FileProgressResponse.file).filter
            (fun s => !(["x"].contains s))) :=
  new_names_appended_last ["x"]
    [⟨"x", 0, 0, false, none⟩, ⟨"b", 0, 0, false, none⟩,
      ⟨"a", 0, 0, false, none⟩] (by decide) (by decide)

end RelayfetchPanel
